import Mathlib

/-!
Verification of the `logger` package's core delivery pipeline:
sampler, async dispatcher, rotating writer, and metrics collector,
together with the public `SetConfig` / `logInternal` glue.

Pure Go functions are embedded as Lean functions; the stateful async
dispatcher and rotating writer are embedded as explicit state-passing
step functions.  `float64` sampling rates are modelled as rationals
(the claims under verification only concern order comparisons of the
rate, never rounding).  Go `int64`/`int` counters are modelled as
`Nat`/`Int` (no claim depends on overflow).
-/

namespace Logger

/-- Log levels of the package (logger.go): Trace, Debug, Info, Notice,
Warn, Error, Audit. -/
inductive LogLevel where
  | Trace
  | Debug
  | Info
  | Notice
  | Warn
  | Error
  | Audit
deriving DecidableEq, Repr

/-- A Go `any` value as it appears in variadic key-value lists: either a
string or some other (opaque, numbered) value. -/
inductive GoVal where
  | str (s : String)
  | other (tag : Nat)
deriving DecidableEq, Repr

/-- Go `fmt.Sprintf("%v", v)` on a `GoVal`: a string prints as itself,
an opaque value prints as its tag. -/
def goFormat : GoVal → String
  | .str s => s
  | .other tag => toString tag

/-! ## Sampler (spec §4.1) -/

/-- Modelled from the spec: the sampler implementation (`shouldSample`
and its hash) is missing from src/ (only `features_test.go` and the
`logInternal` caller reference it).  The spec asks for "a 64-bit
non-cryptographic hash"; we use 64-bit FNV-1a over the character codes
of the input, reduced mod 2^64 at every step. -/
def fnv1a64 (bytes : List Nat) : Nat :=
  bytes.foldl (fun h b => ((h ^^^ b % 256) * 1099511628211) % 2 ^ 64) 14695981039346656037

/-- Modelled from the spec: 64-bit hash of a string, via its character
codes. -/
def hash64 (s : String) : Nat :=
  fnv1a64 (s.data.map Char.toNat)

/-- Modelled from the spec (§4.1): `shouldSample(message, rate, seed)`.
`rate >= 1.0` always accepts (no hashing performed); `rate <= 0.0`
always rejects; otherwise hash the concatenation of the message and the
decimal text of the seed and accept iff `hash % 10000 < rate * 10000`.
The `float64` rate is modelled as a rational. -/
def shouldSample (message : String) (rate : ℚ) (seed : Int) : Bool :=
  if 1 ≤ rate then
    true
  else if rate ≤ 0 then
    false
  else
    decide (((hash64 (message ++ toString seed) % 10000 : ℕ) : ℚ) < rate * 10000)

/-! ## Configuration (src/unnamed/part_004 `Config`, src/logger.go `SetConfig`) -/

/-- Custom slog level `LevelTrace = slog.Level(-8)` (src/unnamed/part_002). -/
def levelTrace : Int := -8

/-- Custom slog level `LevelNotice = slog.Level(2)` (src/unnamed/part_002). -/
def levelNotice : Int := 2

/-- Modelled from the spec: the `LevelAudit` slog constant is referenced
by src/unnamed/part_004 but defined nowhere under src/.  Its numeric
value (placed above Error here) does not affect any theorem below. -/
def levelAudit : Int := 12

/-- `slogLevelFromLogLevel` (src/unnamed/part_004 lines 214-233); the Go
`default` branch is unreachable since `LogLevel` has exactly these seven
values.  Standard slog levels: Debug -4, Info 0, Warn 4, Error 8. -/
def slogLevelFromLogLevel : LogLevel → Int
  | .Trace => levelTrace
  | .Debug => -4
  | .Info => 0
  | .Notice => levelNotice
  | .Warn => 4
  | .Error => 8
  | .Audit => levelAudit

/-- `RotationConfig` (src/unnamed/part_004): sizes in bytes, age as a
duration; `maxBackups` is spec-constrained to be ≥ 0, hence `Nat`. -/
structure RotationConfig where
  maxSize : Int
  maxAge : Int
  maxBackups : Nat
  compress : Bool
deriving DecidableEq, Repr

/-- `Config` (src/unnamed/part_004).  `Output io.Writer` is modelled by
its nil-ness only (`Option Unit`); nil-able slices are `Option` lists;
durations are integers (nanoseconds); `SampleRate float64` is a
rational. -/
structure Config where
  output : Option Unit
  level : Int
  enableColor : Bool
  timeFormat : String
  redactKeys : Option (List String)
  redactMask : String
  maxBodySize : Int
  redactPaths : Option (List String)
  sampleRate : ℚ
  sampleSeed : Int
  rotation : Option RotationConfig
  asyncMode : Bool
  bufferSize : Int
  flushTimeout : Int
  enableMetrics : Bool
  metricsPrefix : String
deriving Repr

/-- `defaultConfig` (src/unnamed/part_004 lines 83-100). -/
def defaultConfig : Config where
  output := some ()
  level := levelTrace
  enableColor := true
  timeFormat := "2006-01-02 15:04:05"
  redactKeys := some ["password", "secret", "token", "authorization", "bearer", "api_key", "api-key"]
  redactMask := "***"
  maxBodySize := 2 ^ 20
  redactPaths := some []
  sampleRate := 1
  sampleSeed := 0
  rotation := none
  asyncMode := false
  bufferSize := 1000
  flushTimeout := 1000000000
  enableMetrics := false
  metricsPrefix := "logger"

/-- The default-filling phase of `SetConfig` (src/logger.go lines
214-250): each zero-valued field is replaced by its default, in source
order. -/
def setConfigFill (cfg : Config) : Config :=
  let cfg := if cfg.output.isNone then { cfg with output := defaultConfig.output } else cfg
  let cfg := if cfg.level = 0 then { cfg with level := defaultConfig.level } else cfg
  let cfg := if cfg.timeFormat = "" then { cfg with timeFormat := defaultConfig.timeFormat } else cfg
  let cfg := if cfg.redactKeys.isNone then { cfg with redactKeys := defaultConfig.redactKeys } else cfg
  let cfg := if cfg.redactMask = "" then { cfg with redactMask := defaultConfig.redactMask } else cfg
  let cfg := if cfg.maxBodySize = 0 then { cfg with maxBodySize := defaultConfig.maxBodySize } else cfg
  let cfg := if cfg.redactPaths.isNone then { cfg with redactPaths := defaultConfig.redactPaths } else cfg
  let cfg := if cfg.sampleRate = 0 then { cfg with sampleRate := defaultConfig.sampleRate } else cfg
  let cfg := if cfg.bufferSize = 0 then { cfg with bufferSize := defaultConfig.bufferSize } else cfg
  let cfg := if cfg.flushTimeout = 0 then { cfg with flushTimeout := defaultConfig.flushTimeout } else cfg
  let cfg := if cfg.metricsPrefix = "" then { cfg with metricsPrefix := defaultConfig.metricsPrefix } else cfg
  cfg

/-- `Config.Validate` (src/unnamed/part_004 lines 51-65). -/
def Config.validate (c : Config) : Option String :=
  if c.output.isNone then some "output cannot be nil"
  else if c.timeFormat = "" then some "TimeFormat cannot be empty"
  else if c.redactMask = "" then some "RedactMask cannot be empty"
  else if c.maxBodySize < 0 then some "MaxBodySize cannot be negative"
  else none

/-- The stored global configuration after `SetConfig old → cfg`
(src/logger.go lines 252-281): defaults are filled, then validation
failure leaves the previous configuration in place, otherwise the filled
configuration is stored. -/
def setConfigStore (old cfg : Config) : Config :=
  let c := setConfigFill cfg
  if (c.validate).isSome then old else c

/-- The filtering decision of `logInternal` (src/unnamed/part_004 lines
126-139): skip if the level is disabled, then skip if sampling rejects;
otherwise the entry proceeds to delivery. -/
def logDecision (cfg : Config) (level : LogLevel) (message : String) : Bool :=
  if slogLevelFromLogLevel level < cfg.level then
    false
  else if cfg.sampleRate < 1 && !shouldSample message cfg.sampleRate cfg.sampleSeed then
    false
  else
    true

/-! ## Async dispatcher (src/unnamed/part_004 `logInternal`, spec §4.4) -/

/-- A queued log entry (the `logEntry` literal built in
src/unnamed/part_004 lines 148-152). -/
structure LogEntry where
  level : LogLevel
  message : String
  keyValues : List GoVal
deriving DecidableEq, Repr

/-- Dispatcher state: the bounded channel contents and the sequence of
entries delivered to the sink so far. -/
structure AsyncState where
  bufferSize : Nat
  queue : List LogEntry
  sink : List LogEntry
deriving DecidableEq, Repr

/-- Fresh dispatcher with an empty channel and untouched sink. -/
def asyncInit (cap : Nat) : AsyncState :=
  ⟨cap, [], []⟩

/-- The producer path of `logInternal` in async mode (src/unnamed/part_004
lines 153-159): a non-blocking channel send; when the channel is full the
entry is written synchronously to the sink instead. -/
def enqueueOrFallback (s : AsyncState) (e : LogEntry) : AsyncState :=
  if s.queue.length < s.bufferSize then
    { s with queue := s.queue ++ [e] }
  else
    { s with sink := s.sink ++ [e] }

/-- Modelled from the spec (§4.4): the consumer loop is missing from
src/; each queued entry is forwarded to the sink in FIFO order. -/
def consumeOne (s : AsyncState) : AsyncState :=
  match s.queue with
  | [] => s
  | e :: rest => { s with queue := rest, sink := s.sink ++ [e] }

/-- An interleaving event: a producer submits an entry, or the consumer
services one queued entry. -/
inductive AsyncOp where
  | submit (e : LogEntry)
  | consume
deriving DecidableEq, Repr

def asyncStep (s : AsyncState) : AsyncOp → AsyncState
  | .submit e => enqueueOrFallback s e
  | .consume => consumeOne s

def asyncRun (s : AsyncState) (ops : List AsyncOp) : AsyncState :=
  ops.foldl asyncStep s

/-- The entries submitted by producers during a run. -/
def submittedEntries (ops : List AsyncOp) : List LogEntry :=
  ops.filterMap fun op =>
    match op with
    | .submit e => some e
    | .consume => none

/-! ## Variadic key-value handling (src/main.go `logInternal` lines 52-67) -/

/-- The odd-length guard of `logInternal` (src/main.go lines 53-56, and
identically src/unnamed/part_004 lines 173-176): an odd key-value list
gets the string "MISSING_VALUE" appended. -/
def padKeyValues (keyValues : List GoVal) : List GoVal :=
  if keyValues.length % 2 ≠ 0 then keyValues ++ [.str "MISSING_VALUE"] else keyValues

/-- The attribute-building loop of `logInternal` (src/main.go lines
58-67): consecutive elements are paired, the key formatted with
`fmt.Sprintf("%v", ·)`; a trailing unpaired element is skipped by the
`i+1 < len` guard. -/
def buildAttrs : List GoVal → List (String × GoVal)
  | k :: v :: rest => (goFormat k, v) :: buildAttrs rest
  | _ => []

/-- Attribute list produced by `logInternal` for a key-value list:
odd-length padding followed by pairing. -/
def logInternalAttrs (keyValues : List GoVal) : List (String × GoVal) :=
  buildAttrs (padKeyValues keyValues)

/-! ## Rotating writer (spec §4.3; `NewRotatingWriter` is missing from src/) -/

/-- Writer state (spec §3 `WriterState`); the filename is tracked
separately where needed. -/
structure WriterState where
  currentSize : Int
  openTime : Int
  backupSequence : Nat
deriving DecidableEq, Repr

/-- Which filesystem operations fail during one rotation: the
environment the writer runs against. -/
structure FsEnv where
  closeFails : Bool
  renameFails : Bool
  openFails : Bool
  compressFails : Bool
  cleanupFails : Bool
deriving DecidableEq, Repr

/-- Environment in which every filesystem operation succeeds. -/
def fsOk : FsEnv :=
  ⟨false, false, false, false, false⟩

/-- Modelled from the spec (§4.3): the rotation trigger, evaluated
before every write using the size the write would produce.  A zero
`maxSize` or `maxAge` disables that dimension. -/
def shouldRotate (cfg : RotationConfig) (st : WriterState) (dataLen : Nat) (now : Int) : Bool :=
  (decide (0 < cfg.maxSize) && decide (cfg.maxSize < st.currentSize + dataLen)) ||
    (decide (0 < cfg.maxAge) && decide (cfg.maxAge < now - st.openTime))

/-- Result of a successful rotation: the new writer state, the sequence
number under which the backup was created, and the best-effort failure
messages that were swallowed. -/
structure RotateOutcome where
  st : WriterState
  backupSeq : Nat
  sideErrors : List String
deriving DecidableEq, Repr

/-- Modelled from the spec (§4.3 rotation procedure; the implementation
is missing from src/): step 1 closes the handle (failure best-effort),
step 2 computes the backup name and increments the sequence, step 3
renames (failure fatal), steps 4-5 launch background compression and
cleanup (failures best-effort, never awaited), step 6 resets the size
and re-opens (failure fatal). -/
def rotate (env : FsEnv) (cfg : RotationConfig) (st : WriterState) (now : Int) :
    Except String RotateOutcome :=
  let sideErrs := if env.closeFails then ["close failed"] else []
  let seq := st.backupSequence
  let st := { st with backupSequence := st.backupSequence + 1 }
  if env.renameFails then
    .error "rename failed"
  else
    let sideErrs := sideErrs ++ (if cfg.compress && env.compressFails then ["compress failed"] else [])
    let sideErrs := sideErrs ++ (if env.cleanupFails then ["cleanup failed"] else [])
    if env.openFails then
      .error "open failed"
    else
      .ok ⟨{ st with currentSize := 0, openTime := now }, seq, sideErrs⟩

/-- Result of one `write` call: new state, bytes written, the backup
created by a triggered rotation (if any), and swallowed best-effort
failures. -/
structure WriteResult where
  st : WriterState
  written : Nat
  createdBackup : Option Nat
  sideErrors : List String
deriving DecidableEq, Repr

/-- Modelled from the spec (§4.3): `write` — evaluate the rotation
trigger against the size the write would produce, rotate if triggered
(propagating only fatal failures), then append the payload. -/
def writeStep (env : FsEnv) (cfg : RotationConfig) (st : WriterState) (dataLen : Nat)
    (now : Int) : Except String WriteResult :=
  if shouldRotate cfg st dataLen now then
    match rotate env cfg st now with
    | .error e => .error e
    | .ok out =>
      .ok ⟨{ out.st with currentSize := out.st.currentSize + dataLen }, dataLen,
        some out.backupSeq, out.sideErrors⟩
  else
    .ok ⟨{ st with currentSize := st.currentSize + dataLen }, dataLen, none, []⟩

/-! ## Backup naming and cleanup (spec §4.3 step 5, §6) -/

/-- Fixed-width zero-padded decimal rendering of `n`, as the character
codes of its `w` digits, most significant first. -/
def padDigits : Nat → Nat → List Nat
  | 0, _ => []
  | w + 1, n => (48 + n / 10 ^ w) :: padDigits w (n % 10 ^ w)

/-- Character code of a full stop. -/
def dotCode : Nat := 46

/-- Character code of a hyphen. -/
def dashCode : Nat := 45

/-- Modelled from the spec (§4.3 step 2, §6): the backup filename
`<filename>.<YYYYMMDD-HHMMSS>.<sequence>` with zero-padded fixed-width
timestamp and sequence, as a list of character codes.  The date part is
the eight digits YYYYMMDD, the time-of-day part the six digits HHMMSS. -/
def backupName (filename : List Nat) (date timeOfDay seq : Nat) : List Nat :=
  filename ++ [dotCode] ++ padDigits 8 date ++ [dashCode] ++ padDigits 6 timeOfDay
    ++ [dotCode] ++ padDigits 6 seq

/-- Lexicographic comparison of character-code lists, i.e. the order in
which the cleanup task sorts backup filenames. -/
def lexLe : List Nat → List Nat → Bool
  | [], _ => true
  | _ :: _, [] => false
  | a :: as, b :: bs => if a < b then true else if b < a then false else lexLe as bs

/-- `lexLe` as a relation, for use with `List.insertionSort`. -/
def nameLe (x y : List Nat) : Prop :=
  lexLe x y = true

instance : DecidableRel nameLe := fun x y =>
  inferInstanceAs (Decidable (lexLe x y = true))

/-- Modelled from the spec (§4.3 step 5; the implementation is missing
from src/): the background cleanup lists all backups for the filename
and, when `maxBackups > 0` and the count exceeds it, deletes the oldest
surplus in lexical filename order.  Returns (kept, deleted). -/
def cleanupBackups (maxBackups : Nat) (backups : List (List Nat)) :
    List (List Nat) × List (List Nat) :=
  if maxBackups = 0 then
    (backups, [])
  else
    let sorted := backups.insertionSort nameLe
    (sorted.drop (sorted.length - maxBackups), sorted.take (sorted.length - maxBackups))

/-! ## Metrics collector (spec §4.2; `LogMetrics` is missing from src/) -/

/-- Modelled from the spec (§3 `MetricsState`): total count, per-level
counts as a finite map (insertion-ordered association list, one entry
per level ever recorded), last error timestamp and instantaneous error
rate. -/
structure LogMetrics where
  totalCount : Nat
  perLevel : List (LogLevel × Nat)
  errorCount : Nat
  lastErrorTime : Int
  errorRate : ℚ
deriving DecidableEq, Repr

/-- `NewLogMetrics()`: all counters zero, no level recorded yet. -/
def metricsInit : LogMetrics :=
  ⟨0, [], 0, 0, 0⟩

/-- Increment the per-level counter, creating the entry on first use. -/
def bumpLevel (l : LogLevel) : List (LogLevel × Nat) → List (LogLevel × Nat)
  | [] => [(l, 1)]
  | (k, c) :: rest => if k = l then (k, c + 1) :: rest else (k, c) :: bumpLevel l rest

/-- Modelled from the spec (§4.2): `recordLog(level)` increments the
total and the per-level counter; on `Error` it also updates the last
error timestamp and recomputes the instantaneous error rate
`totalErrorsSoFar / secondsSinceLastErrorUpdate` (rational division, 0
when the elapsed time is 0). -/
def recordLog (m : LogMetrics) (l : LogLevel) (now : Int) : LogMetrics :=
  let m := { m with totalCount := m.totalCount + 1, perLevel := bumpLevel l m.perLevel }
  if l = .Error then
    { m with
      errorCount := m.errorCount + 1
      lastErrorTime := now
      errorRate := ((m.errorCount + 1 : ℕ) : ℚ) / ((now - m.lastErrorTime : ℤ) : ℚ) }
  else
    m

/-- The metrics state after a sequence of `recordLog(level)` calls with
their timestamps, starting from a fresh collector. -/
def runMetrics (calls : List (LogLevel × Int)) : LogMetrics :=
  calls.foldl (fun m c => recordLog m c.1 c.2) metricsInit

/-- Lower-case level names as used in `logs_<level>` metric keys. -/
def levelName : LogLevel → String
  | .Trace => "trace"
  | .Debug => "debug"
  | .Info => "info"
  | .Notice => "notice"
  | .Warn => "warn"
  | .Error => "error"
  | .Audit => "audit"

/-- A metric value: tagged as int64-valued or float64-valued. -/
inductive MVal where
  | i (n : Nat)
  | f (q : ℚ)
deriving DecidableEq, Repr

/-- Modelled from the spec (§4.2, §6): `snapshot()` returns the mapping
with `total_logs` (int64), `error_rate` (float64) and one
`logs_<level>` (int64) per level ever recorded. -/
def snapshot (m : LogMetrics) : List (String × MVal) :=
  ("total_logs", .i m.totalCount) :: ("error_rate", .f m.errorRate) ::
    m.perLevel.map fun p => ("logs_" ++ levelName p.1, .i p.2)

/-! ## Theorems -/

/-- C2: for every message and seed, `shouldSample` returns true whenever
the rate is at least 1.0 — independently of message and seed, since no
hashing is performed — and returns false whenever the rate is at most
0.0. -/
theorem shouldSample_rate_extremes (m : String) (r : ℚ) (s : Int) :
    (1 ≤ r → shouldSample m r s = true) ∧ (r ≤ 0 → shouldSample m r s = false) ∧
      (∀ m' : String, ∀ s' : Int, 1 ≤ r → shouldSample m r s = shouldSample m' r s') := by
  refine ⟨fun h => by simp [shouldSample, h], fun h => ?_, fun m' s' h => ?_⟩
  · have h1 : ¬ (1 ≤ r) := by intro hc; linarith
    simp [shouldSample, h1, h]
  · simp [shouldSample, h]

/-- Witness for C2 at rate 1 and rate -1. -/
theorem shouldSample_rate_extremes_witness :
    ((1 : ℚ) ≤ 1 ∧ shouldSample "test" 1 42 = true) ∧
      ((-1 : ℚ) ≤ 0 ∧ shouldSample "test" (-1) 42 = false) :=
  ⟨⟨by norm_num, (shouldSample_rate_extremes "test" 1 42).1 (by norm_num)⟩,
   ⟨by norm_num, (shouldSample_rate_extremes "test" (-1) 42).2.1 (by norm_num)⟩⟩

/-- C3: `shouldSample` is deterministic — any two evaluations at the
same (message, rate, seed) triple return the identical boolean.  In
this embedding the sampler is a pure function of exactly these three
arguments, so it has no side effects and no run-to-run variation. -/
theorem shouldSample_deterministic (m : String) (r : ℚ) (s : Int) (b₁ b₂ : Bool) :
    shouldSample m r s = b₁ → shouldSample m r s = b₂ → b₁ = b₂ := by
  intro h₁ h₂
  rw [← h₁, ← h₂]

/-- Witness for C3 at ("test", 1/2, 42). -/
theorem shouldSample_deterministic_witness :
    shouldSample "test" (1/2) 42 = shouldSample "test" (1/2) 42 :=
  shouldSample_deterministic "test" (1/2) 42 _ _ rfl rfl

/-- The `SampleRate` field after default-filling: zero is replaced by
the default 1.0, anything else is kept. -/
theorem setConfigFill_sampleRate (cfg : Config) :
    (setConfigFill cfg).sampleRate = if cfg.sampleRate = 0 then 1 else cfg.sampleRate := by
  simp only [setConfigFill, apply_ite Config.sampleRate, apply_ite Config.level,
    apply_ite Config.output, apply_ite Config.timeFormat, apply_ite Config.redactKeys,
    apply_ite Config.redactMask, apply_ite Config.maxBodySize, apply_ite Config.redactPaths,
    apply_ite Config.bufferSize, apply_ite Config.flushTimeout, apply_ite Config.metricsPrefix,
    ite_self, apply_ite Option.isNone]
  rfl

/-- C9: `SetConfig` treats `SampleRate == 0` as unset and replaces it
with the default 1.0 before storing, so a configuration passed with
`SampleRate` 0.0 is stored with effective rate 1.0, every message at an
enabled level passes the sampling filter of `logInternal`, and no
configuration whatsoever can store a sampling rate of zero through
`SetConfig`. -/
theorem setConfig_zero_sampleRate (old cfg : Config) (lvl : LogLevel) (msg : String)
    (h : cfg.sampleRate = 0) :
    (setConfigFill cfg).sampleRate = 1 ∧
      ((setConfigFill cfg).validate = none → (setConfigStore old cfg).sampleRate = 1) ∧
      ((setConfigFill cfg).level ≤ slogLevelFromLogLevel lvl →
        logDecision (setConfigFill cfg) lvl msg = true) ∧
      (∀ cfg₂ : Config, (setConfigFill cfg₂).sampleRate ≠ 0) := by
  have hfill : (setConfigFill cfg).sampleRate = 1 := by
    rw [setConfigFill_sampleRate, if_pos h]
  refine ⟨hfill, fun hv => ?_, fun henabled => ?_, fun cfg₂ => ?_⟩
  · have : (setConfigFill cfg).validate.isSome = false := by rw [hv]; rfl
    simp [setConfigStore, this, hfill]
  · have hnot : ¬ (slogLevelFromLogLevel lvl < (setConfigFill cfg).level) := not_lt.mpr henabled
    simp [logDecision, hnot, hfill]
  · rw [setConfigFill_sampleRate]
    split
    · norm_num
    · assumption

/-- Witness for C9: the default configuration with `SampleRate` 0. -/
theorem setConfig_zero_sampleRate_witness :
    ({ defaultConfig with sampleRate := 0 } : Config).sampleRate = 0 ∧
      (setConfigFill { defaultConfig with sampleRate := 0 }).sampleRate = 1 ∧
      (setConfigStore defaultConfig { defaultConfig with sampleRate := 0 }).sampleRate = 1 ∧
      logDecision (setConfigFill { defaultConfig with sampleRate := 0 }) .Info "hello" = true :=
  ⟨rfl,
   (setConfig_zero_sampleRate defaultConfig _ .Info "hello" rfl).1,
   (setConfig_zero_sampleRate defaultConfig _ .Info "hello" rfl).2.1 (by rfl),
   (setConfig_zero_sampleRate defaultConfig _ .Info "hello" rfl).2.2.1 (by decide)⟩

/-- Pairing after appending a final key-value pair to an even-length
list appends one attribute. -/
theorem buildAttrs_append_pair (k m : GoVal) :
    ∀ ks : List GoVal, ks.length % 2 = 0 →
      buildAttrs (ks ++ [k, m]) = buildAttrs ks ++ [(goFormat k, m)]
  | [], _ => by simp [buildAttrs]
  | [x], h => by simp at h
  | a :: b :: t, h => by
    have ht : t.length % 2 = 0 := by
      simp only [List.length_cons] at h
      omega
    simp only [List.cons_append, buildAttrs]
    rw [List.append_eq, buildAttrs_append_pair k m t ht]

/-- `buildAttrs` produces one attribute per complete pair. -/
theorem buildAttrs_length :
    ∀ l : List GoVal, (buildAttrs l).length = l.length / 2
  | [] => by simp [buildAttrs]
  | [x] => by simp [buildAttrs]
  | a :: b :: t => by
    simp only [buildAttrs, List.length_cons, buildAttrs_length t]
    omega

/-- C10: a logging call with an odd-length variadic key-value list gets
the string "MISSING_VALUE" appended before attributes are built, so the
trailing key becomes one further attribute with value "MISSING_VALUE"
instead of being dropped, and the attribute count is (n+1)/2. -/
theorem logInternal_odd_keyValues (kvs : List GoVal) (h : kvs.length % 2 = 1) :
    padKeyValues kvs = kvs ++ [.str "MISSING_VALUE"] ∧
      (logInternalAttrs kvs).length = (kvs.length + 1) / 2 ∧
      ∃ k : GoVal, kvs.getLast? = some k ∧
        (logInternalAttrs kvs).getLast? = some (goFormat k, .str "MISSING_VALUE") := by
  have hpad : padKeyValues kvs = kvs ++ [.str "MISSING_VALUE"] := by
    unfold padKeyValues
    rw [if_pos]
    omega
  have hattrs : logInternalAttrs kvs = buildAttrs (kvs ++ [GoVal.str "MISSING_VALUE"]) := by
    unfold logInternalAttrs
    rw [hpad]
  have hlen : (logInternalAttrs kvs).length = (kvs.length + 1) / 2 := by
    rw [hattrs, buildAttrs_length]
    simp only [List.length_append, List.length_cons, List.length_nil]
  refine ⟨hpad, hlen, ?_⟩
  rcases List.eq_nil_or_concat kvs with rfl | ⟨ks, k, rfl⟩
  · simp at h
  · have hks : ks.length % 2 = 0 := by
      simp only [List.concat_eq_append, List.length_append, List.length_cons,
        List.length_nil] at h
      omega
    refine ⟨k, ?_, ?_⟩
    · rw [List.concat_eq_append]
      exact List.getLast?_concat ks
    · rw [hattrs, List.concat_eq_append, List.append_assoc]
      rw [show ([k] ++ [GoVal.str "MISSING_VALUE"]) = [k, GoVal.str "MISSING_VALUE"] from rfl]
      rw [buildAttrs_append_pair k (GoVal.str "MISSING_VALUE") ks hks]
      exact List.getLast?_concat _

/-- Witness for C10 at a three-element key-value list. -/
theorem logInternal_odd_keyValues_witness :
    ([GoVal.str "a", GoVal.other 1, GoVal.str "b"].length % 2 = 1) ∧
      (padKeyValues [GoVal.str "a", GoVal.other 1, GoVal.str "b"]
          = [GoVal.str "a", GoVal.other 1, GoVal.str "b", GoVal.str "MISSING_VALUE"] ∧
        (logInternalAttrs [GoVal.str "a", GoVal.other 1, GoVal.str "b"]).length = 2 ∧
        ∃ k : GoVal, [GoVal.str "a", GoVal.other 1, GoVal.str "b"].getLast? = some k ∧
          (logInternalAttrs [GoVal.str "a", GoVal.other 1, GoVal.str "b"]).getLast?
            = some (goFormat k, GoVal.str "MISSING_VALUE")) :=
  ⟨rfl, logInternal_odd_keyValues [GoVal.str "a", GoVal.other 1, GoVal.str "b"] rfl⟩

/-- Exactly-once accounting for one dispatcher run: the occurrences of
an entry in the sink plus those still queued equal its occurrences in
the starting state plus its submissions. -/
theorem asyncRun_count (e : LogEntry) :
    ∀ (ops : List AsyncOp) (s : AsyncState),
      (asyncRun s ops).sink.count e + (asyncRun s ops).queue.count e
        = s.sink.count e + s.queue.count e + (submittedEntries ops).count e
  | [], s => by simp [asyncRun, submittedEntries]
  | .submit a :: ops, s => by
    have ih := asyncRun_count e ops (asyncStep s (.submit a))
    have hstep : asyncRun s (.submit a :: ops) = asyncRun (asyncStep s (.submit a)) ops := rfl
    rw [hstep, ih]
    have hsub : submittedEntries (.submit a :: ops) = a :: submittedEntries ops := rfl
    rw [hsub]
    simp only [asyncStep, enqueueOrFallback]
    split
    · simp [List.count_cons]
      omega
    · simp [List.count_cons]
      omega
  | .consume :: ops, s => by
    have ih := asyncRun_count e ops (asyncStep s .consume)
    have hstep : asyncRun s (.consume :: ops) = asyncRun (asyncStep s .consume) ops := rfl
    have hsub : submittedEntries (.consume :: ops) = submittedEntries ops := rfl
    rw [hstep, ih, hsub]
    rcases hq : s.queue with _ | ⟨x, rest⟩
    · simp [asyncStep, consumeOne, hq]
    · simp only [asyncStep, consumeOne, hq, List.count_append, List.count_cons,
        List.count_nil, List.count_singleton']
      split <;> omega

/-- C1: while async mode runs, a submitted entry is enqueued exactly
when the bounded queue has free capacity, is written synchronously to
the sink when the queue is full, and in every interleaving of
submissions and consumer steps each submitted entry is delivered to the
sink exactly once — still counting the queued ones — so nothing is
dropped; once the queue is drained the sink holds each submission
exactly once. -/
theorem async_enqueue_fallback_exactly_once (s : AsyncState) (a e : LogEntry) (cap : Nat)
    (ops : List AsyncOp) :
    (s.queue.length < s.bufferSize →
        asyncStep s (.submit a) = { s with queue := s.queue ++ [a] }) ∧
      (s.bufferSize ≤ s.queue.length →
        asyncStep s (.submit a) = { s with sink := s.sink ++ [a] }) ∧
      ((asyncRun (asyncInit cap) ops).sink.count e + (asyncRun (asyncInit cap) ops).queue.count e
        = (submittedEntries ops).count e) ∧
      ((asyncRun (asyncInit cap) ops).queue = [] →
        (asyncRun (asyncInit cap) ops).sink.count e = (submittedEntries ops).count e) := by
  have hcount := asyncRun_count e ops (asyncInit cap)
  have hsink0 : (asyncInit cap).sink.count e = 0 := rfl
  have hqueue0 : (asyncInit cap).queue.count e = 0 := rfl
  rw [hsink0, hqueue0] at hcount
  refine ⟨fun h => ?_, fun h => ?_, by omega, fun hq => ?_⟩
  · simp [asyncStep, enqueueOrFallback, h]
  · simp [asyncStep, enqueueOrFallback, Nat.not_lt.mpr h]
  · rw [hq] at hcount
    simpa using hcount

/-- Witness for C1: capacity 1, two submissions (the second overflowing
into the sync fallback) and one consumer step. -/
theorem async_enqueue_fallback_exactly_once_witness :
    ((⟨2, [], []⟩ : AsyncState).queue.length < 2 ∧
        asyncStep ⟨2, [], []⟩ (.submit ⟨.Info, "a", []⟩) = ⟨2, [⟨.Info, "a", []⟩], []⟩) ∧
      ((⟨1, [⟨.Info, "a", []⟩], []⟩ : AsyncState).bufferSize ≤ 1 ∧
        asyncStep ⟨1, [⟨.Info, "a", []⟩], []⟩ (.submit ⟨.Warn, "b", []⟩)
          = ⟨1, [⟨.Info, "a", []⟩], [⟨.Warn, "b", []⟩]⟩) ∧
      ((asyncRun (asyncInit 1) [.submit ⟨.Info, "a", []⟩, .submit ⟨.Warn, "b", []⟩, .consume]).sink.count
            (⟨.Info, "a", []⟩ : LogEntry)
          = (submittedEntries [.submit ⟨.Info, "a", []⟩, .submit ⟨.Warn, "b", []⟩, .consume]).count
            (⟨.Info, "a", []⟩ : LogEntry)) :=
  ⟨⟨by decide,
    (async_enqueue_fallback_exactly_once ⟨2, [], []⟩ ⟨.Info, "a", []⟩ ⟨.Info, "a", []⟩ 1 []).1
      (by decide)⟩,
   ⟨by decide,
    (async_enqueue_fallback_exactly_once ⟨1, [⟨.Info, "a", []⟩], []⟩ ⟨.Warn, "b", []⟩
        ⟨.Info, "a", []⟩ 1 []).2.1 (by decide)⟩,
   (async_enqueue_fallback_exactly_once ⟨1, [], []⟩ ⟨.Info, "a", []⟩ ⟨.Info, "a", []⟩ 1
      [.submit ⟨.Info, "a", []⟩, .submit ⟨.Warn, "b", []⟩, .consume]).2.2.2 rfl⟩

/-- The Boolean rotation trigger coincides with the spec predicate. -/
theorem shouldRotate_iff (cfg : RotationConfig) (st : WriterState) (dataLen : Nat) (now : Int) :
    shouldRotate cfg st dataLen now = true ↔
      ((0 < cfg.maxSize ∧ cfg.maxSize < st.currentSize + dataLen) ∨
        (0 < cfg.maxAge ∧ cfg.maxAge < now - st.openTime)) := by
  simp [shouldRotate]

/-- C4: `write` evaluates the rotation trigger before the write using
the size the write would produce: with a healthy filesystem the write
succeeds, a backup is created (and the backup sequence incremented) if
and only if `currentSize + len(data) > maxSizeBytes` (when
`maxSizeBytes > 0`) or `now - openTime > maxAge` (when `maxAge > 0`),
and otherwise the state advances without a rotation. -/
theorem rotation_trigger_iff (cfg : RotationConfig) (st : WriterState) (dataLen : Nat)
    (now : Int) :
    ∃ res : WriteResult, writeStep fsOk cfg st dataLen now = .ok res ∧
      (res.createdBackup.isSome ↔
        ((0 < cfg.maxSize ∧ cfg.maxSize < st.currentSize + dataLen) ∨
          (0 < cfg.maxAge ∧ cfg.maxAge < now - st.openTime))) ∧
      (res.createdBackup.isSome → res.st.backupSequence = st.backupSequence + 1) ∧
      (res.createdBackup.isNone → res.st = { st with currentSize := st.currentSize + dataLen }) := by
  by_cases h : shouldRotate cfg st dataLen now = true
  · refine ⟨⟨⟨dataLen, now, st.backupSequence + 1⟩, dataLen, some st.backupSequence, []⟩, ?_, ?_, ?_, ?_⟩
    · simp [writeStep, h, rotate, fsOk]
    · simpa using (shouldRotate_iff cfg st dataLen now).mp h
    · intro _
      rfl
    · intro hnone
      simp at hnone
  · refine ⟨⟨{ st with currentSize := st.currentSize + dataLen }, dataLen, none, []⟩, ?_, ?_, ?_, ?_⟩
    · simp [writeStep, h]
    · constructor
      · intro hsome
        simp at hsome
      · intro hcond
        exact absurd ((shouldRotate_iff cfg st dataLen now).mpr hcond) h
    · intro hsome
      simp at hsome
    · intro _
      rfl

/-- Witness for C4: a 60-byte write against a 100-byte limit at current
size 50 triggers exactly one backup. -/
theorem rotation_trigger_iff_witness :
    ∃ res : WriteResult,
      writeStep fsOk ⟨100, 0, 3, false⟩ ⟨50, 0, 0⟩ 60 0 = .ok res ∧
        res.createdBackup.isSome ∧ res.st.backupSequence = 1 :=
  match rotation_trigger_iff ⟨100, 0, 3, false⟩ ⟨50, 0, 0⟩ 60 0 with
  | ⟨res, hok, hiff, hseq, _⟩ =>
    have hsome : res.createdBackup.isSome := hiff.mpr (.inl ⟨by norm_num, by norm_num⟩)
    ⟨res, hok, hsome, hseq hsome⟩

/-- C5: when a write triggers a rotation, the write returns an error
exactly when the rename or the re-open fails — a rename failure is
returned as "rename failed" and an open failure (with the rename
succeeding) as "open failed" — while close, compression and cleanup
failures never make the write fail. -/
theorem rotation_error_propagation (env : FsEnv) (cfg : RotationConfig) (st : WriterState)
    (dataLen : Nat) (now : Int) (h : shouldRotate cfg st dataLen now = true) :
    ((writeStep env cfg st dataLen now).isOk = (!env.renameFails && !env.openFails)) ∧
      (env.renameFails = true →
        writeStep env cfg st dataLen now = .error "rename failed") ∧
      (env.renameFails = false → env.openFails = true →
        writeStep env cfg st dataLen now = .error "open failed") := by
  refine ⟨?_, fun hr => ?_, fun hr ho => ?_⟩
  · rcases hr : env.renameFails with _ | _ <;> rcases ho : env.openFails with _ | _ <;>
      simp [writeStep, h, rotate, hr, ho, Except.isOk, Except.toBool]
  · simp [writeStep, h, rotate, hr]
  · simp [writeStep, h, rotate, hr, ho]

/-- Witness for C5: rename failure surfaces, while close, compression
and cleanup failures alone leave the write successful. -/
theorem rotation_error_propagation_witness :
    (shouldRotate ⟨100, 0, 3, true⟩ ⟨50, 0, 0⟩ 60 0 = true) ∧
      writeStep ⟨false, true, false, false, false⟩ ⟨100, 0, 3, true⟩ ⟨50, 0, 0⟩ 60 0
          = .error "rename failed" ∧
      (writeStep ⟨true, false, false, true, true⟩ ⟨100, 0, 3, true⟩ ⟨50, 0, 0⟩ 60 0).isOk
          = (!false && !false) :=
  ⟨by decide,
   (rotation_error_propagation ⟨false, true, false, false, false⟩ ⟨100, 0, 3, true⟩
      ⟨50, 0, 0⟩ 60 0 (by decide)).2.1 rfl,
   (rotation_error_propagation ⟨true, false, false, true, true⟩ ⟨100, 0, 3, true⟩
      ⟨50, 0, 0⟩ 60 0 (by decide)).1⟩

/-- `bumpLevel` adds exactly one to the sum of the per-level counters. -/
theorem bumpLevel_sum (l : LogLevel) :
    ∀ pl : List (LogLevel × Nat),
      ((bumpLevel l pl).map Prod.snd).sum = (pl.map Prod.snd).sum + 1
  | [] => by simp [bumpLevel]
  | (k, c) :: rest => by
    by_cases hk : k = l
    · simp [bumpLevel, hk]
      omega
    · simp [bumpLevel, hk, bumpLevel_sum l rest]
      omega

/-- `recordLog` leaves the total and per-level components as the plain
increments, whatever the error-rate branch does. -/
theorem recordLog_components (m : LogMetrics) (l : LogLevel) (now : Int) :
    (recordLog m l now).totalCount = m.totalCount + 1 ∧
      (recordLog m l now).perLevel = bumpLevel l m.perLevel := by
  unfold recordLog
  split <;> exact ⟨rfl, rfl⟩

/-- Folding `recordLog` over a list of calls adds the number of calls to
the total and to the per-level sum. -/
theorem foldRecord_total_sum :
    ∀ (calls : List (LogLevel × Int)) (m : LogMetrics),
      (calls.foldl (fun m c => recordLog m c.1 c.2) m).totalCount
          = m.totalCount + calls.length ∧
        ((calls.foldl (fun m c => recordLog m c.1 c.2) m).perLevel.map Prod.snd).sum
          = (m.perLevel.map Prod.snd).sum + calls.length
  | [], m => by simp
  | c :: calls, m => by
    have ih := foldRecord_total_sum calls (recordLog m c.1 c.2)
    have hc := recordLog_components m c.1 c.2
    refine ⟨?_, ?_⟩
    · rw [List.foldl_cons, ih.1, hc.1, List.length_cons]
      omega
    · rw [List.foldl_cons, ih.2, hc.2, bumpLevel_sum, List.length_cons]
      omega

/-- C7: at every quiescent point — after any sequence of `recordLog`
calls has completed — the collector's total equals the sum of the
per-level counters, and after N calls both equal N. -/
theorem metrics_total_invariant (calls : List (LogLevel × Int)) :
    (runMetrics calls).totalCount = ((runMetrics calls).perLevel.map Prod.snd).sum ∧
      (runMetrics calls).totalCount = calls.length := by
  have h := foldRecord_total_sum calls metricsInit
  unfold runMetrics
  rw [h.1, h.2]
  simp [metricsInit]

/-- A key is in the bumped per-level map exactly when it was there
before or is the level just recorded. -/
theorem mem_bumpLevel_keys (x l : LogLevel) :
    ∀ pl : List (LogLevel × Nat),
      (x ∈ (bumpLevel l pl).map Prod.fst ↔ x ∈ pl.map Prod.fst ∨ x = l)
  | [] => by simp [bumpLevel]
  | (k, c) :: rest => by
    by_cases hk : k = l
    · subst hk
      simp [bumpLevel]
      tauto
    · simp [bumpLevel, hk, mem_bumpLevel_keys x l rest]
      tauto

/-- `bumpLevel` preserves distinctness of the per-level keys. -/
theorem bumpLevel_keys_nodup (l : LogLevel) :
    ∀ pl : List (LogLevel × Nat),
      (pl.map Prod.fst).Nodup → ((bumpLevel l pl).map Prod.fst).Nodup
  | [], _ => by simp [bumpLevel]
  | (k, c) :: rest, h => by
    simp only [List.map_cons, List.nodup_cons] at h
    by_cases hk : k = l
    · subst hk
      have hb : bumpLevel k ((k, c) :: rest) = (k, c + 1) :: rest := by
        simp [bumpLevel]
      rw [hb]
      simp only [List.map_cons, List.nodup_cons]
      exact h
    · have hb : bumpLevel l ((k, c) :: rest) = (k, c) :: bumpLevel l rest := by
        simp [bumpLevel, hk]
      rw [hb]
      simp only [List.map_cons, List.nodup_cons]
      refine ⟨?_, bumpLevel_keys_nodup l rest h.2⟩
      rw [mem_bumpLevel_keys]
      push_neg
      exact ⟨h.1, hk⟩

/-- The levels recorded by a fold are those of the starting state plus
those appearing in the calls. -/
theorem foldRecord_keys (x : LogLevel) :
    ∀ (calls : List (LogLevel × Int)) (m : LogMetrics),
      (x ∈ (calls.foldl (fun m c => recordLog m c.1 c.2) m).perLevel.map Prod.fst ↔
        x ∈ m.perLevel.map Prod.fst ∨ x ∈ calls.map Prod.fst)
  | [], m => by simp
  | c :: calls, m => by
    have ih := foldRecord_keys x calls (recordLog m c.1 c.2)
    have hc := (recordLog_components m c.1 c.2).2
    rw [List.foldl_cons, ih, hc, mem_bumpLevel_keys]
    simp
    tauto

/-- A fold of `recordLog` keeps the per-level keys distinct. -/
theorem foldRecord_keys_nodup :
    ∀ (calls : List (LogLevel × Int)) (m : LogMetrics),
      (m.perLevel.map Prod.fst).Nodup →
        ((calls.foldl (fun m c => recordLog m c.1 c.2) m).perLevel.map Prod.fst).Nodup
  | [], m, h => h
  | c :: calls, m, h => by
    rw [List.foldl_cons]
    exact foldRecord_keys_nodup calls (recordLog m c.1 c.2)
      (by rw [(recordLog_components m c.1 c.2).2]; exact bumpLevel_keys_nodup c.1 _ h)

/-- The `logs_<level>` key builder is injective. -/
theorem logsKey_inj : Function.Injective (fun l : LogLevel => "logs_" ++ levelName l) := by
  intro a b
  cases a <;> cases b <;> decide

/-- A `logs_<level>` key never collides with `total_logs`. -/
theorem logsKey_ne_total (l : LogLevel) : "logs_" ++ levelName l ≠ "total_logs" := by
  cases l <;> decide

/-- A `logs_<level>` key never collides with `error_rate`. -/
theorem logsKey_ne_rate (l : LogLevel) : "logs_" ++ levelName l ≠ "error_rate" := by
  cases l <;> decide

/-- C8: a snapshot carries exactly the keys `total_logs` (int64-typed),
`error_rate` (float64-typed) and one `logs_<level>` (int64-typed) per
level recorded at least once; its keys are pairwise distinct and a level
never recorded contributes no key at all. -/
theorem snapshot_keys (calls : List (LogLevel × Int)) :
    ((snapshot (runMetrics calls)).map Prod.fst).Nodup ∧
      ("total_logs", MVal.i (runMetrics calls).totalCount) ∈ snapshot (runMetrics calls) ∧
      ("error_rate", MVal.f (runMetrics calls).errorRate) ∈ snapshot (runMetrics calls) ∧
      (∀ key : String,
        key ∈ (snapshot (runMetrics calls)).map Prod.fst ↔
          key = "total_logs" ∨ key = "error_rate" ∨
            ∃ l : LogLevel, l ∈ calls.map Prod.fst ∧ key = "logs_" ++ levelName l) ∧
      (∀ l : LogLevel, l ∉ calls.map Prod.fst →
        ("logs_" ++ levelName l) ∉ (snapshot (runMetrics calls)).map Prod.fst) := by
  have hkeys : ∀ x : LogLevel,
      (x ∈ (runMetrics calls).perLevel.map Prod.fst ↔ x ∈ calls.map Prod.fst) := by
    intro x
    unfold runMetrics
    rw [foldRecord_keys]
    simp [metricsInit]
  have hnodup : ((runMetrics calls).perLevel.map Prod.fst).Nodup := by
    unfold runMetrics
    exact foldRecord_keys_nodup calls metricsInit (by simp [metricsInit])
  have hmap : (snapshot (runMetrics calls)).map Prod.fst
      = "total_logs" :: "error_rate" ::
        ((runMetrics calls).perLevel.map Prod.fst).map
          (fun l => "logs_" ++ levelName l) := by
    simp [snapshot, List.map_map]
  have hmem : ∀ key : String,
      key ∈ (snapshot (runMetrics calls)).map Prod.fst ↔
        key = "total_logs" ∨ key = "error_rate" ∨
          ∃ l : LogLevel, l ∈ calls.map Prod.fst ∧ key = "logs_" ++ levelName l := by
    intro key
    rw [hmap]
    constructor
    · intro hk2
      rcases List.mem_cons.mp hk2 with rfl | hk2
      · exact .inl rfl
      rcases List.mem_cons.mp hk2 with rfl | hk2
      · exact .inr (.inl rfl)
      rcases List.mem_map.mp hk2 with ⟨l, hl, rfl⟩
      exact .inr (.inr ⟨l, (hkeys l).mp hl, rfl⟩)
    · rintro (rfl | rfl | ⟨l, hl, rfl⟩)
      · exact List.mem_cons_self _ _
      · exact List.mem_cons_of_mem _ (List.mem_cons_self _ _)
      · exact List.mem_cons_of_mem _ (List.mem_cons_of_mem _
          (List.mem_map_of_mem _ ((hkeys l).mpr hl)))
  refine ⟨?_, ?_, ?_, hmem, ?_⟩
  · rw [hmap]
    refine List.nodup_cons.mpr ⟨?_, List.nodup_cons.mpr ⟨?_, hnodup.map logsKey_inj⟩⟩
    · intro hmem2
      rcases List.mem_cons.mp hmem2 with h | h
      · exact absurd h (by decide)
      · rcases List.mem_map.mp h with ⟨l, _, hl⟩
        exact logsKey_ne_total l hl
    · intro hmem2
      rcases List.mem_map.mp hmem2 with ⟨l, _, hl⟩
      exact logsKey_ne_rate l hl
  · simp [snapshot]
  · simp [snapshot]
  · intro l hl hmemkey
    rcases (hmem _).mp hmemkey with h | h | ⟨l', hl', heq⟩
    · exact logsKey_ne_total l h
    · exact logsKey_ne_rate l h
    · exact hl ((logsKey_inj heq) ▸ hl')

/-- Witness for C8: one Info and one Error call — `logs_info` and
`logs_error` are present, `logs_debug` is absent. -/
theorem snapshot_keys_witness :
    (("logs_" ++ levelName .Info)
        ∈ (snapshot (runMetrics [(.Info, 0), (.Error, 5)])).map Prod.fst) ∧
      ((LogLevel.Debug ∉ ([(.Info, 0), (.Error, 5)] : List (LogLevel × Int)).map Prod.fst) ∧
        ("logs_" ++ levelName .Debug)
          ∉ (snapshot (runMetrics [(.Info, 0), (.Error, 5)])).map Prod.fst) :=
  ⟨((snapshot_keys [(.Info, 0), (.Error, 5)]).2.2.2.1 _).mpr
      (.inr (.inr ⟨.Info, by decide, rfl⟩)),
   ⟨by decide, (snapshot_keys [(.Info, 0), (.Error, 5)]).2.2.2.2 .Debug (by decide)⟩⟩

/-- Head-unfolding of the lexicographic comparison. -/
theorem lexLe_cons_iff (a b : Nat) (as bs : List Nat) :
    lexLe (a :: as) (b :: bs) = true ↔ (a < b ∨ (a = b ∧ lexLe as bs = true)) := by
  simp only [lexLe]
  split_ifs with h1 h2
  · simp [h1]
  · constructor
    · intro hfalse
      simp at hfalse
    · rintro (hc | ⟨hc, _⟩) <;> omega
  · have hab : a = b := by omega
    subst hab
    simp

/-- The filename order is reflexive. -/
theorem lexLe_refl : ∀ x : List Nat, lexLe x x = true
  | [] => rfl
  | a :: as => by
    rw [lexLe_cons_iff]
    exact .inr ⟨rfl, lexLe_refl as⟩

/-- The filename order is total. -/
theorem lexLe_total : ∀ x y : List Nat, lexLe x y = true ∨ lexLe y x = true
  | [], _ => .inl rfl
  | _ :: _, [] => .inr rfl
  | a :: as, b :: bs => by
    rcases Nat.lt_trichotomy a b with h | h | h
    · exact .inl ((lexLe_cons_iff a b as bs).mpr (.inl h))
    · subst h
      rcases lexLe_total as bs with ih | ih
      · exact .inl ((lexLe_cons_iff a a as bs).mpr (.inr ⟨rfl, ih⟩))
      · exact .inr ((lexLe_cons_iff a a bs as).mpr (.inr ⟨rfl, ih⟩))
    · exact .inr ((lexLe_cons_iff b a bs as).mpr (.inl h))

/-- The filename order is transitive. -/
theorem lexLe_trans : ∀ x y z : List Nat,
    lexLe x y = true → lexLe y z = true → lexLe x z = true
  | [], _, _, _, _ => rfl
  | _ :: _, [], _, hxy, _ => by simp [lexLe] at hxy
  | _ :: _, _ :: _, [], _, hyz => by simp [lexLe] at hyz
  | a :: as, b :: bs, c :: cs, hxy, hyz => by
    rw [lexLe_cons_iff] at hxy hyz ⊢
    rcases hxy with hab | ⟨hab, hxy'⟩
    · rcases hyz with hbc | ⟨hbc, _⟩
      · exact .inl (by omega)
      · exact .inl (by omega)
    · rcases hyz with hbc | ⟨hbc, hyz'⟩
      · exact .inl (by omega)
      · exact .inr ⟨by omega, lexLe_trans as bs cs hxy' hyz'⟩

/-- Comparing two lists sharing a common front part compares the
remainders. -/
theorem lexLe_append_same : ∀ (p x y : List Nat), lexLe (p ++ x) (p ++ y) = lexLe x y
  | [], _, _ => rfl
  | a :: p, x, y => by
    simp only [List.cons_append, lexLe, lt_irrefl, ite_false]
    exact lexLe_append_same p x y

/-- A strictly smaller equal-length front block decides the comparison
in favour of the left list, whatever follows. -/
theorem lexLe_append_lt : ∀ (x₁ x₂ r₁ r₂ : List Nat), x₁.length = x₂.length → x₁ ≠ x₂ →
    lexLe x₁ x₂ = true → lexLe (x₁ ++ r₁) (x₂ ++ r₂) = true
  | [], [], _, _, _, hne, _ => absurd rfl hne
  | [], _ :: _, _, _, hlen, _, _ => by simp at hlen
  | _ :: _, [], _, _, hlen, _, _ => by simp at hlen
  | a :: as, b :: bs, r₁, r₂, hlen, hne, hle => by
    rcases (lexLe_cons_iff a b as bs).mp hle with hab | ⟨hab, hle'⟩
    · simp only [List.cons_append]
      exact (lexLe_cons_iff _ _ _ _).mpr (.inl hab)
    · subst hab
      have hne' : as ≠ bs := fun hcontra => hne (by rw [hcontra])
      have hlen' : as.length = bs.length := by simpa using hlen
      simp only [List.cons_append]
      exact (lexLe_cons_iff _ _ _ _).mpr
        (.inr ⟨rfl, lexLe_append_lt as bs r₁ r₂ hlen' hne' hle'⟩)

/-- A strictly larger equal-length front block decides the comparison
against the left list, whatever follows. -/
theorem lexLe_append_gt : ∀ (x₁ x₂ r₁ r₂ : List Nat), x₁.length = x₂.length → x₁ ≠ x₂ →
    lexLe x₂ x₁ = true → lexLe (x₁ ++ r₁) (x₂ ++ r₂) = false
  | [], [], _, _, _, hne, _ => absurd rfl hne
  | [], _ :: _, _, _, hlen, _, _ => by simp at hlen
  | _ :: _, [], _, _, hlen, _, _ => by simp at hlen
  | a :: as, b :: bs, r₁, r₂, hlen, hne, hle => by
    rw [Bool.eq_false_iff]
    intro hcontra
    simp only [List.cons_append] at hcontra
    rcases (lexLe_cons_iff _ _ _ _).mp hcontra with hab | ⟨hab, hcontra'⟩
    · rcases (lexLe_cons_iff b a bs as).mp hle with hba | ⟨hba, _⟩
      · omega
      · omega
    · subst hab
      rcases (lexLe_cons_iff a a bs as).mp hle with hba | ⟨_, hle'⟩
      · omega
      · have hne' : as ≠ bs := fun hcontra2 => hne (by rw [hcontra2])
        have hlen' : as.length = bs.length := by simpa using hlen
        have := lexLe_append_gt as bs r₁ r₂ hlen' hne' hle'
        rw [this] at hcontra'
        exact Bool.false_ne_true hcontra'

/-- Fixed-width rendering has the fixed width. -/
theorem padDigits_length : ∀ w n, (padDigits w n).length = w
  | 0, _ => rfl
  | w + 1, n => by simp [padDigits, padDigits_length w]

/-- On numbers below the width bound, lexical order of the zero-padded
fixed-width digits coincides with numeric order. -/
theorem lexLe_padDigits : ∀ (w a b : Nat), a < 10 ^ w → b < 10 ^ w →
    (lexLe (padDigits w a) (padDigits w b) = true ↔ a ≤ b)
  | 0, a, b, ha, hb => by
    simp only [pow_zero] at ha hb
    simp only [padDigits, lexLe]
    simp
    omega
  | w + 1, a, b, ha, hb => by
    have h10 : 0 < 10 ^ w := pow_pos (by norm_num) w
    have hmod_a : a % 10 ^ w < 10 ^ w := Nat.mod_lt _ h10
    have hmod_b : b % 10 ^ w < 10 ^ w := Nat.mod_lt _ h10
    have ih := lexLe_padDigits w (a % 10 ^ w) (b % 10 ^ w) hmod_a hmod_b
    simp only [padDigits]
    rw [lexLe_cons_iff, ih]
    have hda := Nat.div_add_mod a (10 ^ w)
    have hdb := Nat.div_add_mod b (10 ^ w)
    constructor
    · rintro (hlt | ⟨heq, hmod⟩)
      · have hq : a / 10 ^ w + 1 ≤ b / 10 ^ w := by omega
        have ha2 : a < 10 ^ w * (a / 10 ^ w + 1) := by
          rw [Nat.mul_add, Nat.mul_one]
          omega
        have hb2 : 10 ^ w * (a / 10 ^ w + 1) ≤ 10 ^ w * (b / 10 ^ w) :=
          Nat.mul_le_mul_left _ hq
        omega
      · have hq : a / 10 ^ w = b / 10 ^ w := by omega
        rw [hq] at hda
        omega
    · intro hab
      rcases Nat.lt_trichotomy (a / 10 ^ w) (b / 10 ^ w) with hq | hq | hq
      · exact .inl (by omega)
      · refine .inr ⟨by omega, ?_⟩
        rw [hq] at hda
        omega
      · exfalso
        have hq2 : b / 10 ^ w + 1 ≤ a / 10 ^ w := by omega
        have hb2 : b < 10 ^ w * (b / 10 ^ w + 1) := by
          rw [Nat.mul_add, Nat.mul_one]
          omega
        have ha2 : 10 ^ w * (b / 10 ^ w + 1) ≤ 10 ^ w * (a / 10 ^ w) :=
          Nat.mul_le_mul_left _ hq2
        omega

/-- Distinct numbers below the width bound render to distinct digit
strings. -/
theorem padDigits_inj (w a b : Nat) (ha : a < 10 ^ w) (hb : b < 10 ^ w)
    (h : padDigits w a = padDigits w b) : a = b := by
  have h1 := (lexLe_padDigits w a b ha hb).mp (by rw [h]; exact lexLe_refl _)
  have h2 := (lexLe_padDigits w b a hb ha).mp (by rw [← h]; exact lexLe_refl _)
  omega

/-- Lexical order of two backup names for the same filename coincides
with chronological order of their (date, time-of-day, sequence)
triples. -/
theorem backupName_le_iff (fn : List Nat) (d₁ t₁ s₁ d₂ t₂ s₂ : Nat)
    (hd₁ : d₁ < 10 ^ 8) (hd₂ : d₂ < 10 ^ 8) (ht₁ : t₁ < 10 ^ 6) (ht₂ : t₂ < 10 ^ 6)
    (hs₁ : s₁ < 10 ^ 6) (hs₂ : s₂ < 10 ^ 6) :
    (lexLe (backupName fn d₁ t₁ s₁) (backupName fn d₂ t₂ s₂) = true ↔
      (d₁ < d₂ ∨ (d₁ = d₂ ∧ (t₁ < t₂ ∨ (t₁ = t₂ ∧ s₁ ≤ s₂))))) := by
  have hshape : ∀ d t s : Nat, backupName fn d t s
      = (fn ++ [dotCode]) ++ (padDigits 8 d
          ++ ([dashCode] ++ (padDigits 6 t ++ ([dotCode] ++ padDigits 6 s)))) := by
    intro d t s
    simp [backupName, List.append_assoc]
  rw [hshape, hshape, lexLe_append_same]
  by_cases hd : d₁ = d₂
  · subst hd
    rw [lexLe_append_same, lexLe_append_same]
    by_cases ht : t₁ = t₂
    · subst ht
      rw [lexLe_append_same, lexLe_append_same, lexLe_padDigits 6 s₁ s₂ hs₁ hs₂]
      constructor
      · intro hs
        exact .inr ⟨rfl, .inr ⟨rfl, hs⟩⟩
      · rintro (hc | ⟨_, hc | ⟨_, hc⟩⟩) <;> omega
    · have hlen : (padDigits 6 t₁).length = (padDigits 6 t₂).length := by
        rw [padDigits_length, padDigits_length]
      have hne : padDigits 6 t₁ ≠ padDigits 6 t₂ :=
        fun hcontra => ht (padDigits_inj 6 t₁ t₂ ht₁ ht₂ hcontra)
      rcases Nat.lt_or_ge t₁ t₂ with hlt | hge
      · rw [lexLe_append_lt _ _ _ _ hlen hne
          ((lexLe_padDigits 6 t₁ t₂ ht₁ ht₂).mpr (by omega))]
        simp
        omega
      · have hlt2 : t₂ < t₁ := by omega
        rw [lexLe_append_gt _ _ _ _ hlen hne
          ((lexLe_padDigits 6 t₂ t₁ ht₂ ht₁).mpr (by omega))]
        constructor
        · intro hc
          simp at hc
        · rintro (hc | ⟨_, hc | ⟨hc, _⟩⟩) <;> omega
  · have hlen : (padDigits 8 d₁).length = (padDigits 8 d₂).length := by
      rw [padDigits_length, padDigits_length]
    have hne : padDigits 8 d₁ ≠ padDigits 8 d₂ :=
      fun hcontra => hd (padDigits_inj 8 d₁ d₂ hd₁ hd₂ hcontra)
    rcases Nat.lt_or_ge d₁ d₂ with hlt | hge
    · rw [lexLe_append_lt _ _ _ _ hlen hne
        ((lexLe_padDigits 8 d₁ d₂ hd₁ hd₂).mpr (by omega))]
      simp
      omega
    · have hlt2 : d₂ < d₁ := by omega
      rw [lexLe_append_gt _ _ _ _ hlen hne
        ((lexLe_padDigits 8 d₂ d₁ hd₂ hd₁).mpr (by omega))]
      constructor
      · intro hc
        simp at hc
      · rintro (hc | ⟨hc, _⟩) <;> omega

/-- The filename order is total, packaged for `insertionSort`. -/
theorem nameLe_isTotal : IsTotal (List Nat) nameLe :=
  ⟨fun a b => lexLe_total a b⟩

/-- The filename order is transitive, packaged for `insertionSort`. -/
theorem nameLe_isTrans : IsTrans (List Nat) nameLe :=
  ⟨fun a b c => lexLe_trans a b c⟩

/-- C6: with `maxBackups > 0`, after the background cleanup finishes
exactly `min maxBackups count` backup files remain — so at most
`maxBackups`, and nothing at all is deleted unless the count exceeds
`maxBackups` — the deleted files are exactly the `count - maxBackups`
surplus, kept and deleted files together are exactly the original
backups, every deleted file precedes every kept file in lexical
filename order, and — because the embedded fixed-width timestamp and
sequence make lexical order coincide with chronological order — the
deleted surplus consists of the oldest backups. -/
theorem backup_cleanup_retention (maxB : Nat) (backups : List (List Nat)) (h : 0 < maxB) :
    (cleanupBackups maxB backups).1.length = min maxB backups.length ∧
      (cleanupBackups maxB backups).2.length = backups.length - maxB ∧
      (backups.length ≤ maxB → (cleanupBackups maxB backups).2 = []) ∧
      ((cleanupBackups maxB backups).2 ++ (cleanupBackups maxB backups).1).Perm backups ∧
      (∀ d ∈ (cleanupBackups maxB backups).2, ∀ kp ∈ (cleanupBackups maxB backups).1,
        lexLe d kp = true) ∧
      (∀ (fn : List Nat) (d₁ t₁ s₁ d₂ t₂ s₂ : Nat),
        d₁ < 10 ^ 8 → d₂ < 10 ^ 8 → t₁ < 10 ^ 6 → t₂ < 10 ^ 6 → s₁ < 10 ^ 6 → s₂ < 10 ^ 6 →
          (lexLe (backupName fn d₁ t₁ s₁) (backupName fn d₂ t₂ s₂) = true ↔
            (d₁ < d₂ ∨ (d₁ = d₂ ∧ (t₁ < t₂ ∨ (t₁ = t₂ ∧ s₁ ≤ s₂)))))) := by
  haveI := nameLe_isTotal
  haveI := nameLe_isTrans
  have hne : maxB ≠ 0 := by omega
  have hcleanup : cleanupBackups maxB backups
      = ((backups.insertionSort nameLe).drop ((backups.insertionSort nameLe).length - maxB),
         (backups.insertionSort nameLe).take ((backups.insertionSort nameLe).length - maxB)) := by
    simp [cleanupBackups, hne]
  have hslen : (backups.insertionSort nameLe).length = backups.length :=
    List.length_insertionSort nameLe backups
  rw [hcleanup]
  refine ⟨?_, ?_, ?_, ?_, ?_, ?_⟩
  · simp only [List.length_drop, hslen]
    omega
  · simp only [List.length_take, hslen]
    omega
  · intro hle
    have hlen0 : (backups.insertionSort nameLe).length - maxB = 0 := by
      rw [hslen]
      omega
    rw [hlen0]
    show List.take 0 (backups.insertionSort nameLe) = []
    exact List.take_zero _
  · rw [List.take_append_drop]
    exact List.perm_insertionSort nameLe backups
  · intro d hd kp hkp
    have hsorted : List.Sorted nameLe (backups.insertionSort nameLe) :=
      List.sorted_insertionSort nameLe backups
    rw [← List.take_append_drop ((backups.insertionSort nameLe).length - maxB)
      (backups.insertionSort nameLe)] at hsorted
    exact (List.pairwise_append.mp hsorted).2.2 d hd kp hkp
  · intro fn d₁ t₁ s₁ d₂ t₂ s₂ hd₁ hd₂ ht₁ ht₂ hs₁ hs₂
    exact backupName_le_iff fn d₁ t₁ s₁ d₂ t₂ s₂ hd₁ hd₂ ht₁ ht₂ hs₁ hs₂

/-- Witness for C6: three backups cut down to exactly two with exactly
one (the oldest) deleted, a no-surplus run deleting nothing, and a
same-second pair of backup names ordered by sequence. -/
theorem backup_cleanup_retention_witness :
    0 < 2 ∧
      (cleanupBackups 2 [[98], [97], [99]]).1.length
          = min 2 ([[98], [97], [99]] : List (List Nat)).length ∧
      (cleanupBackups 2 [[98], [97], [99]]).2.length
          = ([[98], [97], [99]] : List (List Nat)).length - 2 ∧
      ((cleanupBackups 2 [[98], [97], [99]]).2
          ++ (cleanupBackups 2 [[98], [97], [99]]).1).Perm [[98], [97], [99]] ∧
      (([[98], [97], [99]] : List (List Nat)).length ≤ 5 ∧
        (cleanupBackups 5 [[98], [97], [99]]).2 = []) ∧
      lexLe (backupName [97] 20240101 120000 3) (backupName [97] 20240101 120000 4) = true :=
  ⟨by decide,
   (backup_cleanup_retention 2 [[98], [97], [99]] (by decide)).1,
   (backup_cleanup_retention 2 [[98], [97], [99]] (by decide)).2.1,
   (backup_cleanup_retention 2 [[98], [97], [99]] (by decide)).2.2.2.1,
   ⟨by decide, (backup_cleanup_retention 5 [[98], [97], [99]] (by decide)).2.2.1 (by decide)⟩,
   ((backup_cleanup_retention 2 [[98], [97], [99]] (by decide)).2.2.2.2.2 [97] 20240101 120000 3
      20240101 120000 4 (by norm_num) (by norm_num) (by norm_num) (by norm_num) (by norm_num)
      (by norm_num)).mpr (by omega)⟩

end Logger
